import Mathlib

/-!
Shallow embedding of the ClipForge timeline composition engine.

The definitions below translate the timeline logic of the renderer embedded in
`src/preload.ts` (class `VideoEditorApp`: `addToTimeline`, `setupClipDrag`,
`getSnapPoints`, `snapToNearestPoint`, `isValidPosition`, `setupTrimHandle`,
`getClipAtTime`, `updatePlayheadFromMouse`, `getTimelineDuration`) and the
`video:export` IPC handler of `src/main.ts`.  Times are modelled as exact
rationals (`ℚ`); the JavaScript `Map` of timeline clips is modelled as a list
in insertion order, matching `Map.prototype.values()` iteration order.
-/

namespace ClipForge

/-- `TimelineClip` from `src/preload.ts`: a clip placed on the timeline.
`clipId` is the id of the source media (`videoClip`), `sourceDuration` is
`videoClip.duration`, and `duration` is the stored `duration` field (the code
maintains `duration = trimEnd - trimStart`). -/
structure TimelineClip where
  id : Nat
  clipId : Nat
  startTime : ℚ
  duration : ℚ
  trimStart : ℚ
  trimEnd : ℚ
  track : Nat
  sourceDuration : ℚ
deriving DecidableEq, Repr

/-- Composition end of a clip: `clip.startTime + clip.duration`. -/
def clipEnd (c : TimelineClip) : ℚ := c.startTime + c.duration

/-- Two clips' half-open composition spans `[startTime, startTime+duration)`
intersect. -/
def spansOverlap (a b : TimelineClip) : Prop :=
  a.startTime < clipEnd b ∧ b.startTime < clipEnd a

instance (a b : TimelineClip) : Decidable (spansOverlap a b) :=
  inferInstanceAs (Decidable (_ ∧ _))

theorem spansOverlap_symm {a b : TimelineClip} (h : spansOverlap a b) :
    spansOverlap b a := ⟨h.2, h.1⟩

/-- The non-overlap invariant: any two clips on the same track have disjoint
half-open composition spans. -/
def noOverlaps (clips : List TimelineClip) : Prop :=
  List.Pairwise (fun a b => a.track = b.track → ¬ spansOverlap a b) clips

instance (clips : List TimelineClip) : Decidable (noOverlaps clips) :=
  inferInstanceAs (Decidable (List.Pairwise _ _))

/-- The overlap test performed by `isValidPosition` (`src/preload.ts`,
lines 682-686) on one existing clip, for a candidate span
`[s, s + dur)`: translated clause by clause from the JavaScript condition. -/
def conflictsSpan (s dur : ℚ) (d : TimelineClip) : Prop :=
  (d.startTime ≤ s ∧ s < clipEnd d) ∨
  (d.startTime < s + dur ∧ s + dur ≤ clipEnd d) ∨
  (s ≤ d.startTime ∧ clipEnd d ≤ s + dur)

instance (s dur : ℚ) (d : TimelineClip) : Decidable (conflictsSpan s dur d) :=
  inferInstanceAs (Decidable (_ ∨ _ ∨ _))

/-- `isValidPosition(startTime, duration, track, excludeClipId)` from
`src/preload.ts` lines 671-692: a candidate position is valid when no clip on
the same track (other than the excluded one) conflicts with it. -/
def isValidPosition (clips : List TimelineClip) (s dur : ℚ) (track : Nat)
    (exclId : Option Nat) : Bool :=
  clips.all fun d =>
    if d.track = track ∧ exclId ≠ some d.id ∧ conflictsSpan s dur d then false
    else true

/-- The comparator `(a, b) => a.startTime - b.startTime` used by
`getSnapPoints` and `getClipAtTime`. -/
def startLE (a b : TimelineClip) : Prop := a.startTime ≤ b.startTime

instance : DecidableRel startLE :=
  fun a b => inferInstanceAs (Decidable (a.startTime ≤ b.startTime))

instance : IsTotal TimelineClip startLE := ⟨fun a b => le_total a.startTime b.startTime⟩

instance : IsTrans TimelineClip startLE := ⟨fun _ _ _ h h' => le_trans h h'⟩

/-- The stable `Array.prototype.sort` by ascending `startTime`. -/
def sortByStart (l : List TimelineClip) : List TimelineClip :=
  List.insertionSort startLE l

/-- `getSnapPoints(excludeClip)` from `src/preload.ts` lines 633-647:
`0` followed by the end times of the other clips on the same track, in
ascending `startTime` order. -/
def getSnapPoints (clips : List TimelineClip) (excl : TimelineClip) : List ℚ :=
  0 :: (sortByStart (clips.filter fun c =>
    c.track == excl.track && c.id != excl.id)).map clipEnd

/-- The loop of `snapToNearestPoint` (`src/preload.ts` lines 652-666): the
accumulator is `(bestSnapPoint, minDistance)`, with `none` standing for the
initial `Infinity`; a snap point is adopted when it is valid and strictly
closer than the current minimum. -/
def snapFold (valid : ℚ → Bool) (time : ℚ) :
    List ℚ → ℚ × Option ℚ → ℚ × Option ℚ
  | [], acc => acc
  | pt :: pts, acc =>
    let d := |time - pt|
    let upd : Bool := valid pt &&
      (match acc.2 with
       | none => true
       | some m => decide (d < m))
    snapFold valid time pts (if upd then (pt, some d) else acc)

/-- `snapToNearestPoint(time, snapPoints, clipDuration, excludeClip)` from
`src/preload.ts` lines 649-669. -/
def snapToNearestPoint (clips : List TimelineClip) (time : ℚ)
    (snapPoints : List ℚ) (clipDuration : ℚ) (excl : Option TimelineClip) : ℚ :=
  let track := match excl with
    | some c => c.track
    | none => 0
  let exclId := excl.map TimelineClip.id
  (snapFold (fun pt => isValidPosition clips pt clipDuration track exclId)
    time snapPoints (0, none)).1

/-- The start time committed by a drag of clip `c` toward raw proposed time
`p` (`setupClipDrag`, `src/preload.ts` lines 601-618). -/
def moveClipStart (clips : List TimelineClip) (c : TimelineClip) (p : ℚ) : ℚ :=
  snapToNearestPoint clips p (getSnapPoints clips c) c.duration (some c)

/-- The committed state after dragging clip `c` to raw proposed time `p`:
`clip.startTime = snappedTime` (`src/preload.ts` line 617). -/
def commitMove (clips : List TimelineClip) (c : TimelineClip) (p : ℚ) :
    List TimelineClip :=
  clips.map fun d =>
    if d.id = c.id then { d with startTime := moveClipStart clips c p } else d

/-- The `0.1` minimum clip duration hard-coded in `setupTrimHandle`. -/
def MIN_CLIP_DURATION : ℚ := 1 / 10

/-- Left trim handle (`setupTrimHandle`, `src/preload.ts` lines 727-736):
`newTrimStart = Math.max(0, Math.min(clip.trimEnd - 0.1, proposed))`, then
`clip.duration = clip.trimEnd - clip.trimStart`.  `startTime` is not touched. -/
def trimLeft (c : TimelineClip) (p : ℚ) : TimelineClip :=
  let ts := max 0 (min (c.trimEnd - MIN_CLIP_DURATION) p)
  { c with trimStart := ts, duration := c.trimEnd - ts }

/-- Right trim handle (`setupTrimHandle`, `src/preload.ts` lines 737-745):
`newTrimEnd = Math.min(clip.videoClip.duration, Math.max(clip.trimStart + 0.1,
proposed))`, then `clip.duration = clip.trimEnd - clip.trimStart`. -/
def trimRight (c : TimelineClip) (p : ℚ) : TimelineClip :=
  let te := min c.sourceDuration (max (c.trimStart + MIN_CLIP_DURATION) p)
  { c with trimEnd := te, duration := te - c.trimStart }

inductive TrimSide
  | start
  | stop
deriving DecidableEq, Repr

/-- One committed trim-handle drag on the clip with id `cid`. -/
def applyTrim (side : TrimSide) (c : TimelineClip) (p : ℚ) : TimelineClip :=
  match side with
  | .start => trimLeft c p
  | .stop => trimRight c p

/-- The state after a committed trim of clip `cid`. -/
def commitTrim (clips : List TimelineClip) (cid : Nat) (side : TrimSide)
    (p : ℚ) : List TimelineClip :=
  clips.map fun d => if d.id = cid then applyTrim side d p else d

/-- One step of `addToTimeline`'s loop over the existing clips
(`src/preload.ts` lines 372-379): keep the larger of the running start time
and this clip's end time, for clips on the target track. -/
def trackStep (track : Nat) (acc : ℚ) (c : TimelineClip) : ℚ :=
  if c.track = track ∧ acc < clipEnd c then clipEnd c else acc

/-- `addToTimeline(clipId, track)` start-time computation (`src/preload.ts`
lines 370-379): the largest end time among clips already on the track,
starting from `0`. -/
def trackEnd (clips : List TimelineClip) (track : Nat) : ℚ :=
  clips.foldl (trackStep track) 0

/-- `addToTimeline(clipId, track)` from `src/preload.ts` lines 366-396: the
new clip is appended at the end of the track with the full source duration
(`trimStart = 0`, `trimEnd = duration = videoClip.duration`).  Note that the
function takes no desired start position. -/
def addToTimeline (clips : List TimelineClip) (newId sourceId : Nat)
    (sourceDuration : ℚ) (track : Nat) : List TimelineClip :=
  clips ++ [{ id := newId, clipId := sourceId,
              startTime := trackEnd clips track,
              duration := sourceDuration, trimStart := 0,
              trimEnd := sourceDuration, track := track,
              sourceDuration := sourceDuration }]

/-- `deleteTimelineClip` (`src/preload.ts` lines 556-582): removal from the
clip map. -/
def deleteTimelineClip (clips : List TimelineClip) (cid : Nat) :
    List TimelineClip :=
  clips.filter fun c => c.id != cid

/-- `getClipAtTime(time)` from `src/preload.ts` lines 1213-1227: the first
clip on track 0, in ascending `startTime` order, whose half-open span
contains `time`. -/
def getClipAtTime (clips : List TimelineClip) (time : ℚ) : Option TimelineClip :=
  (sortByStart (clips.filter fun c => c.track == 0)).find? fun c =>
    decide (c.startTime ≤ time ∧ time < clipEnd c)

/-- The source time computed when scrubbing (`updatePlayheadFromMouse`,
`src/preload.ts` lines 535-545): `videoTime = clip.trimStart + (time -
clip.startTime)` for the clip returned by `getClipAtTime`. -/
def playheadSourceTime (clips : List TimelineClip) (time : ℚ) : Option ℚ :=
  (getClipAtTime clips time).map fun c => c.trimStart + (time - c.startTime)

/-- `getTimelineDuration` from `src/preload.ts` lines 1229-1252. -/
def getTimelineDuration (clips : List TimelineClip) : ℚ :=
  trackEnd (clips.filter fun c => c.track == 0) 0

/-- Modelled from the spec: the Timeline Store operation `split(id,
atCompositionTime)` (spec §4.1) is not implemented anywhere under `src/`
(the project documents list splitting as a planned feature only), so it is
modelled faithfully from the spec's words: it fails unless the time is
strictly inside the clip's span; on success the clip is replaced by two
contiguous clips sharing the same source, the first keeping `trimStart` with
`trimEnd = trimStart + (t - startTime)`, the second starting at `t` with
`trimStart` equal to the first's new `trimEnd` and the original `trimEnd`. -/
def splitClip (c : TimelineClip) (t : ℚ) (newId : Nat) :
    Option (TimelineClip × TimelineClip) :=
  if c.startTime < t ∧ t < c.startTime + (c.trimEnd - c.trimStart) then
    let cut := c.trimStart + (t - c.startTime)
    some ({ c with trimEnd := cut, duration := cut - c.trimStart },
          { c with id := newId, startTime := t, trimStart := cut,
                   duration := c.trimEnd - cut })
  else none

/-- The per-clip payload sent by the renderer's `exportVideo`
(`src/preload.ts` lines 793-801): `clipId` is the source file path and
`duration` is the clip's stored duration (`trimEnd - trimStart`). -/
structure ExportClip where
  clipId : String
  startTime : ℚ
  duration : ℚ
  trimStart : ℚ
  trimEnd : ℚ
  track : Nat
deriving DecidableEq, Repr

/-- The renderer-side payload construction from a timeline clip. -/
def toExportClip (c : TimelineClip) (path : String) : ExportClip :=
  { clipId := path, startTime := c.startTime, duration := c.duration,
    trimStart := c.trimStart, trimEnd := c.trimEnd, track := c.track }

/-- The single-clip branch of the `video:export` handler (`src/main.ts`
lines 204-233): trim options `(-ss trimStart, -t duration)` are attached only
when `clip.trimStart > 0 || clip.trimEnd < clip.duration`. -/
def singleClipTrim (c : ExportClip) : Option (ℚ × ℚ) :=
  if 0 < c.trimStart ∨ c.trimEnd < c.duration then some (c.trimStart, c.duration)
  else none

/-- The half-open source range `[a, b)` actually extracted by the single-clip
export of a source of duration `sourceDur`. -/
def singleClipRange (c : ExportClip) (sourceDur : ℚ) : ℚ × ℚ :=
  match singleClipTrim c with
  | some (s, d) => (s, s + d)
  | none => (0, sourceDur)

/-- Filesystem artifacts of one `video:export` invocation. -/
inductive EPath
  | output
  | tempDir
  | tempFile (i : Nat)
  | concatList
deriving DecidableEq, Repr

/-- Observable outcome of one `video:export` invocation: the artifacts left
on disk, how many encoder processes were spawned, the surfaced error (if
any), and whether the concat step was attempted. -/
structure ExportResult where
  fs : List EPath
  encodersSpawned : Nat
  error : Option String
  concatAttempted : Bool
deriving DecidableEq, Repr

/-- The sort comparator of the export handler (`src/main.ts` lines 198-201):
by track, then by start time. -/
def exportLE (a b : ExportClip) : Prop :=
  a.track < b.track ∨ (a.track = b.track ∧ a.startTime ≤ b.startTime)

instance : DecidableRel exportLE :=
  fun a b => inferInstanceAs
    (Decidable (a.track < b.track ∨ (a.track = b.track ∧ a.startTime ≤ b.startTime)))

instance : IsTotal ExportClip exportLE := by
  constructor
  intro a b
  rcases Nat.lt_trichotomy a.track b.track with h | h | h
  · exact Or.inl (Or.inl h)
  · rcases le_total a.startTime b.startTime with h' | h'
    · exact Or.inl (Or.inr ⟨h, h'⟩)
    · exact Or.inr (Or.inr ⟨h.symm, h'⟩)
  · exact Or.inr (Or.inl h)

instance : IsTrans ExportClip exportLE := by
  constructor
  intro _ _ c hab hbc
  rcases hab with h | ⟨h, h'⟩
  · rcases hbc with g | ⟨g, _⟩
    · exact Or.inl (h.trans g)
    · exact Or.inl (g ▸ h)
  · rcases hbc with g | ⟨g, g'⟩
    · exact Or.inl (h ▸ g)
    · exact Or.inr ⟨h.trans g, h'.trans g'⟩

/-- The export handler's clip ordering. -/
def sortExport (clips : List ExportClip) : List ExportClip :=
  List.insertionSort exportLE clips

/-- The `video:export` IPC handler of `src/main.ts` lines 178-307, as a
function of the clip list and of the outcomes of the external encoder
processes (`encodeOk i` tells whether clip `i`'s trim-encode succeeds,
`concatOk` whether the final concat succeeds).

Control flow from the source: an empty clip list is rejected with
`'No clips to export'` before anything is spawned; a single clip is encoded
straight to the output; otherwise a temp directory is created, every clip is
trim-encoded concurrently to `clip-i.mp4`, and only when all of them succeed
is `concat.txt` written and the concat spawned, with cleanup of the temp
artifacts on concat success only.  No cleanup is performed on any failure
path. -/
def runExport (clips : List ExportClip) (encodeOk : Nat → Bool)
    (concatOk : Bool) : ExportResult :=
  if clips.length = 0 then
    { fs := [], encodersSpawned := 0, error := some "No clips to export",
      concatAttempted := false }
  else
    let sorted := sortExport clips
    if sorted.length = 1 then
      if encodeOk 0 then
        { fs := [.output], encodersSpawned := 1, error := none,
          concatAttempted := false }
      else
        { fs := [], encodersSpawned := 1, error := some "encode failed",
          concatAttempted := false }
    else
      let n := sorted.length
      let made := ((List.range n).filter fun i => encodeOk i).map EPath.tempFile
      if (List.range n).all encodeOk then
        if concatOk then
          { fs := [.output], encodersSpawned := n + 1, error := none,
            concatAttempted := true }
        else
          { fs := .tempDir :: made ++ [.concatList], encodersSpawned := n + 1,
            error := some "concat failed", concatAttempted := true }
      else
        { fs := .tempDir :: made, encodersSpawned := n,
          error := some "encode failed", concatAttempted := false }

/-! ### Basic lemmas about the embedding -/

theorem if_not_cond (P : Prop) [Decidable P] :
    ((if P then false else true) = true) ↔ ¬P := by
  split
  · simp_all
  · simp_all

/-- `isValidPosition` is the pointwise absence of conflicts on the track. -/
theorem isValidPosition_iff (clips : List TimelineClip) (s dur : ℚ)
    (track : Nat) (exclId : Option Nat) :
    isValidPosition clips s dur track exclId = true ↔
      ∀ d ∈ clips, d.track = track → exclId ≠ some d.id →
        ¬ conflictsSpan s dur d := by
  simp only [isValidPosition, List.all_eq_true, if_not_cond]
  constructor
  · intro h d hd ht he hc
    exact h d hd ⟨ht, he, hc⟩
  · intro h d hd hc
    exact h d hd hc.1 hc.2.1 hc.2.2

/-- A position at or above the composition end of every other clip on the
track is always valid, as long as all durations involved are positive. -/
theorem isValidPosition_of_upper_bound (clips : List TimelineClip)
    (s dur : ℚ) (track : Nat) (exclId : Option Nat) (hdur : 0 < dur)
    (h : ∀ d ∈ clips, d.track = track → exclId ≠ some d.id →
      0 < d.duration ∧ clipEnd d ≤ s) :
    isValidPosition clips s dur track exclId = true := by
  rw [isValidPosition_iff]
  intro d hd ht he hc
  obtain ⟨hpos, hle⟩ := h d hd ht he
  have hstart : d.startTime < clipEnd d := by
    have := hpos
    unfold clipEnd
    linarith
  rcases hc with ⟨_, h2⟩ | ⟨_, h2⟩ | ⟨h1, _⟩
  · linarith
  · linarith
  · linarith

theorem snapFold_cons (v : ℚ → Bool) (t pt : ℚ) (pts : List ℚ)
    (acc : ℚ × Option ℚ) :
    snapFold v t (pt :: pts) acc =
      snapFold v t pts
        (if (v pt &&
            (match acc.2 with
             | none => true
             | some m => decide (|t - pt| < m))) = true
         then (pt, some |t - pt|) else acc) := rfl

/-- The recorded best point is always a valid point at its recorded
distance. -/
theorem snapFold_best_valid (v : ℚ → Bool) (t : ℚ) :
    ∀ (pts : List ℚ) (acc : ℚ × Option ℚ),
      (∀ m, acc.2 = some m → v acc.1 = true ∧ m = |t - acc.1|) →
      ∀ m', (snapFold v t pts acc).2 = some m' →
        v (snapFold v t pts acc).1 = true ∧ m' = |t - (snapFold v t pts acc).1|
  | [], acc, h => h
  | pt :: pts, acc, h => by
    rw [snapFold_cons]
    split
    · next hc =>
      refine snapFold_best_valid v t pts _ ?_
      intro m hm
      simp only at hm
      obtain ⟨hv, _⟩ := Bool.and_eq_true_iff.mp hc
      cases hm
      exact ⟨hv, rfl⟩
    · exact snapFold_best_valid v t pts acc h

/-- The recorded minimal distance never increases along the fold. -/
theorem snapFold_min_mono (v : ℚ → Bool) (t : ℚ) :
    ∀ (pts : List ℚ) (acc : ℚ × Option ℚ) (m : ℚ), acc.2 = some m →
      ∃ m', (snapFold v t pts acc).2 = some m' ∧ m' ≤ m
  | [], acc, m, h => ⟨m, h, le_refl m⟩
  | pt :: pts, acc, m, h => by
    rw [snapFold_cons]
    split
    · next hc =>
      obtain ⟨_, hlt⟩ := Bool.and_eq_true_iff.mp hc
      rw [h] at hlt
      have hdm : |t - pt| < m := of_decide_eq_true hlt
      obtain ⟨m', hm', hle⟩ :=
        snapFold_min_mono v t pts (pt, some |t - pt|) |t - pt| rfl
      exact ⟨m', hm', hle.trans hdm.le⟩
    · exact snapFold_min_mono v t pts acc m h

/-- If the fold ends with no recorded distance, it started with none and no
point of the list is valid. -/
theorem snapFold_none (v : ℚ → Bool) (t : ℚ) :
    ∀ (pts : List ℚ) (acc : ℚ × Option ℚ),
      (snapFold v t pts acc).2 = none →
      acc.2 = none ∧ ∀ q ∈ pts, v q = false
  | [], _, h => ⟨h, by simp⟩
  | pt :: pts, acc, h => by
    rw [snapFold_cons] at h
    have hsplit :
        (if (v pt &&
            (match acc.2 with
             | none => true
             | some m => decide (|t - pt| < m))) = true
         then (pt, some |t - pt|) else acc).2 = none ∧
        ∀ q ∈ pts, v q = false := snapFold_none v t pts _ h
    obtain ⟨hacc, hall⟩ := hsplit
    by_cases hc : (v pt &&
        (match acc.2 with
         | none => true
         | some m => decide (|t - pt| < m))) = true
    · rw [if_pos hc] at hacc
      simp at hacc
    · rw [if_neg hc] at hacc
      refine ⟨hacc, ?_⟩
      intro q hq
      rcases List.mem_cons.mp hq with rfl | hq'
      · rw [hacc] at hc
        simpa using hc
      · exact hall q hq'

/-- The returned point is either the initial accumulator's or one of the
list's points. -/
theorem snapFold_mem (v : ℚ → Bool) (t : ℚ) :
    ∀ (pts : List ℚ) (acc : ℚ × Option ℚ),
      (snapFold v t pts acc).1 = acc.1 ∨ (snapFold v t pts acc).1 ∈ pts
  | [], _ => Or.inl rfl
  | pt :: pts, acc => by
    rw [snapFold_cons]
    split
    · rcases snapFold_mem v t pts (pt, some |t - pt|) with h | h
      · exact Or.inr (h ▸ List.mem_cons_self pt pts)
      · exact Or.inr (List.mem_cons_of_mem pt h)
    · rcases snapFold_mem v t pts acc with h | h
      · exact Or.inl h
      · exact Or.inr (List.mem_cons_of_mem pt h)

/-- Updates are strict: if the recorded distance survives unchanged, so does
the recorded point. -/
theorem snapFold_eq_of_min_eq (v : ℚ → Bool) (t : ℚ) :
    ∀ (pts : List ℚ) (acc : ℚ × Option ℚ) (m m' : ℚ),
      acc.2 = some m → (snapFold v t pts acc).2 = some m' → m' = m →
      (snapFold v t pts acc).1 = acc.1
  | [], _, _, _, _, _, _ => rfl
  | pt :: pts, acc, m, m', hacc, hres, heq => by
    rw [snapFold_cons] at hres ⊢
    by_cases hc : (v pt &&
        (match acc.2 with
         | none => true
         | some m => decide (|t - pt| < m))) = true
    · exfalso
      obtain ⟨_, hlt⟩ := Bool.and_eq_true_iff.mp hc
      rw [hacc] at hlt
      have hdm : |t - pt| < m := of_decide_eq_true hlt
      rw [if_pos hc] at hres
      obtain ⟨m'', hm'', hle⟩ :=
        snapFold_min_mono v t pts (pt, some |t - pt|) |t - pt| rfl
      rw [hres] at hm''
      cases hm''
      rw [heq] at hle
      exact absurd (hle.trans_lt hdm) (lt_irrefl m)
    · rw [if_neg hc] at hres ⊢
      exact snapFold_eq_of_min_eq v t pts acc m m' hacc hres heq

/-- Minimality with the deterministic tie-break: on a list sorted ascending,
the fold's result is at least as close to `t` as every valid point, and in
case of an exact tie the returned point is the smaller one. -/
theorem snapFold_min (v : ℚ → Bool) (t : ℚ) :
    ∀ (pts : List ℚ) (acc : ℚ × Option ℚ),
      pts.Pairwise (· ≤ ·) →
      (∀ m, acc.2 = some m → ∀ q ∈ pts, acc.1 ≤ q) →
      ∀ q ∈ pts, v q = true →
        ∃ m', (snapFold v t pts acc).2 = some m' ∧ m' ≤ |t - q| ∧
          (m' = |t - q| → (snapFold v t pts acc).1 ≤ q)
  | [], _, _, _, q, hq, _ => absurd hq (List.not_mem_nil q)
  | pt :: pts, acc, hsort, hacc, q, hq, hv => by
    rw [snapFold_cons]
    have hsort' := (List.pairwise_cons.mp hsort).2
    have hhead := (List.pairwise_cons.mp hsort).1
    by_cases hc : (v pt &&
        (match acc.2 with
         | none => true
         | some m => decide (|t - pt| < m))) = true
    · rw [if_pos hc]
      have hacc' : ∀ m, (pt, some |t - pt|).2 = some m →
          ∀ r ∈ pts, (pt, some |t - pt|).1 ≤ r := by
        intro m _ r hr
        exact hhead r hr
      rcases List.mem_cons.mp hq with heq | hq'
      · rw [heq]
        obtain ⟨m', hm', hle⟩ :=
          snapFold_min_mono v t pts (pt, some |t - pt|) |t - pt| rfl
        refine ⟨m', hm', hle, ?_⟩
        intro htie
        have hkeep := snapFold_eq_of_min_eq v t pts (pt, some |t - pt|)
          |t - pt| m' rfl hm' htie
        rw [hkeep]
      · exact snapFold_min v t pts (pt, some |t - pt|) hsort' hacc' q hq' hv
    · rw [if_neg hc]
      have hacc'' : ∀ m, acc.2 = some m → ∀ r ∈ pts, acc.1 ≤ r := by
        intro m hm r hr
        exact hacc m hm r (List.mem_cons_of_mem pt hr)
      rcases List.mem_cons.mp hq with heq | hq'
      · -- `q = pt` was valid but not adopted: the recorded distance already
        -- beats it, so the recorded point (kept if the tie is exact) wins.
        rw [heq] at hv ⊢
        rcases hm : acc.2 with _ | m
        · exfalso
          rw [Bool.and_eq_true_iff] at hc
          push_neg at hc
          rcases Decidable.em (v pt = true) with hvt | hvf
          · have := hc hvt
            rw [hm] at this
            simp at this
          · exact hvf hv
        · have hnlt : ¬ |t - pt| < m := by
            intro hlt
            apply hc
            rw [Bool.and_eq_true_iff]
            refine ⟨hv, ?_⟩
            rw [hm]
            simpa using hlt
          obtain ⟨m', hm', hle⟩ := snapFold_min_mono v t pts acc m hm
          refine ⟨m', hm', hle.trans (not_lt.mp hnlt), ?_⟩
          intro htie
          have hmm : m' = m := le_antisymm hle (by
            rw [htie]
            exact not_lt.mp hnlt)
          have := snapFold_eq_of_min_eq v t pts acc m m' hm hm' hmm
          rw [this]
          exact hacc m hm pt (List.mem_cons_self pt pts)
      · exact snapFold_min v t pts acc hsort' hacc'' q hq' hv

/-! ### The largest end time on a track -/

theorem le_foldl_max (l : List ℚ) : ∀ a : ℚ, a ≤ l.foldl max a := by
  induction l with
  | nil => intro a; exact le_refl a
  | cons x xs ih =>
    intro a
    exact (le_max_left a x).trans (ih (max a x))

theorem mem_le_foldl_max (l : List ℚ) : ∀ a : ℚ, ∀ x ∈ l, x ≤ l.foldl max a := by
  induction l with
  | nil => intro a x hx; exact absurd hx (List.not_mem_nil x)
  | cons y ys ih =>
    intro a x hx
    rcases List.mem_cons.mp hx with rfl | hx'
    · exact (le_max_right a x).trans (le_foldl_max ys (max a x))
    · exact ih (max a y) x hx'

theorem foldl_max_mem (l : List ℚ) : ∀ a : ℚ, l.foldl max a = a ∨ l.foldl max a ∈ l := by
  induction l with
  | nil => intro a; exact Or.inl rfl
  | cons x xs ih =>
    intro a
    rcases ih (max a x) with h | h
    · rcases le_total a x with hax | hxa
      · rw [List.foldl_cons, h, max_eq_right hax]
        exact Or.inr (List.mem_cons_self x xs)
      · rw [List.foldl_cons, h, max_eq_left hxa]
        exact Or.inl rfl
    · exact Or.inr (List.mem_cons_of_mem x h)

/-- Every snap candidate list contains a position that is valid for the
dragged clip: its own largest element (every other clip on the track ends at
or before it). -/
theorem getSnapPoints_exists_valid (clips : List TimelineClip)
    (c : TimelineClip) (hdur : 0 < c.duration)
    (hothers : ∀ d ∈ clips, d.track = c.track → d.id ≠ c.id → 0 < d.duration) :
    ∃ q ∈ getSnapPoints clips c,
      isValidPosition clips q c.duration c.track (some c.id) = true := by
  set ends := (sortByStart (clips.filter fun d =>
      d.track == c.track && d.id != c.id)).map clipEnd with hends
  have hpts_eq : getSnapPoints clips c = 0 :: ends := rfl
  refine ⟨ends.foldl max 0, ?_, ?_⟩
  · rw [hpts_eq]
    rcases foldl_max_mem ends 0 with h | h
    · rw [h]
      exact List.mem_cons_self _ _
    · exact List.mem_cons_of_mem _ h
  apply isValidPosition_of_upper_bound clips _ c.duration c.track (some c.id) hdur
  intro d hd ht hne
  have hid : d.id ≠ c.id := by
    intro h
    exact hne (by rw [h])
  refine ⟨hothers d hd ht hid, ?_⟩
  have hmemf : d ∈ clips.filter fun d => d.track == c.track && d.id != c.id := by
    rw [List.mem_filter]
    refine ⟨hd, ?_⟩
    rw [Bool.and_eq_true_iff]
    exact ⟨beq_iff_eq.mpr ht, bne_iff_ne.mpr hid⟩
  have hmems : d ∈ sortByStart (clips.filter fun d =>
      d.track == c.track && d.id != c.id) :=
    (List.mem_insertionSort startLE).mpr hmemf
  have hmeme : clipEnd d ∈ ends := by
    rw [hends]
    exact List.mem_map_of_mem clipEnd hmems
  exact mem_le_foldl_max ends 0 (clipEnd d) hmeme

theorem moveClipStart_eq_snapFold (clips : List TimelineClip)
    (c : TimelineClip) (p : ℚ) :
    moveClipStart clips c p =
      (snapFold
        (fun pt => isValidPosition clips pt c.duration c.track (some c.id))
        p (getSnapPoints clips c) (0, none)).1 := rfl

/-- Claim C2: for every move of a placed clip, the set of legal snap
candidates is non-empty (so the code's fallback for an empty legal set is
unreachable and the claimed "no move" behaviour holds vacuously), and the
committed snapped start is always a legal position: the moved clip never
overlaps another clip on its track.  The hypotheses are the store's own
invariants: positive durations. -/
theorem moveClipStart_never_overlaps (clips : List TimelineClip)
    (c : TimelineClip) (p : ℚ) (hdur : 0 < c.duration)
    (hothers : ∀ d ∈ clips, d.track = c.track → d.id ≠ c.id → 0 < d.duration) :
    (∃ q ∈ getSnapPoints clips c,
        isValidPosition clips q c.duration c.track (some c.id) = true) ∧
    isValidPosition clips (moveClipStart clips c p) c.duration c.track
      (some c.id) = true := by
  obtain ⟨q, hq, hqv⟩ := getSnapPoints_exists_valid clips c hdur hothers
  refine ⟨⟨q, hq, hqv⟩, ?_⟩
  rw [moveClipStart_eq_snapFold]
  set v := fun pt => isValidPosition clips pt c.duration c.track (some c.id)
    with hv
  rcases hres : (snapFold v p (getSnapPoints clips c) (0, none)).2 with _ | m'
  · exfalso
    obtain ⟨_, hall⟩ := snapFold_none v p (getSnapPoints clips c) (0, none) hres
    have hqv' : v q = true := hqv
    rw [hall q hq] at hqv'
    exact Bool.false_ne_true hqv'
  · have := snapFold_best_valid v p (getSnapPoints clips c) (0, none)
      (by intro m hm; simp at hm) m' hres
    exact this.1

/-- Clip spanning `[0, 5)` on track 0, used by the concrete scenarios. -/
def clip05 : TimelineClip :=
  { id := 1, clipId := 1, startTime := 0, duration := 5, trimStart := 0,
    trimEnd := 5, track := 0, sourceDuration := 5 }

/-- Clip spanning `[8, 12)` on track 0. -/
def clip812 : TimelineClip :=
  { id := 2, clipId := 2, startTime := 8, duration := 4, trimStart := 0,
    trimEnd := 4, track := 0, sourceDuration := 4 }

/-- A clip of duration `3` being dragged on track 0. -/
def movingClip : TimelineClip :=
  { id := 3, clipId := 3, startTime := 13, duration := 3, trimStart := 0,
    trimEnd := 3, track := 0, sourceDuration := 3 }

theorem moveClipStart_never_overlaps_witness :
    (∃ q ∈ getSnapPoints [clip05, clip812, movingClip] movingClip,
        isValidPosition [clip05, clip812, movingClip] q movingClip.duration
          movingClip.track (some movingClip.id) = true) ∧
    isValidPosition [clip05, clip812, movingClip]
      (moveClipStart [clip05, clip812, movingClip] movingClip 6)
      movingClip.duration movingClip.track (some movingClip.id) = true :=
  moveClipStart_never_overlaps [clip05, clip812, movingClip] movingClip 6
    (by norm_num [movingClip])
    (by
      intro d hd
      fin_cases hd <;> norm_num [clip05, clip812, movingClip])

/-! ### Sortedness of the snap-candidate list -/

/-- On a non-overlapping track with positive durations, end times follow
start times: the snap-candidate list is ascending. -/
theorem getSnapPoints_sorted (clips : List TimelineClip) (c : TimelineClip)
    (hno : noOverlaps clips)
    (hpos : ∀ d ∈ clips, d.track = c.track → d.id ≠ c.id →
      0 < d.duration ∧ 0 ≤ d.startTime) :
    (getSnapPoints clips c).Pairwise (· ≤ ·) := by
  classical
  set others := clips.filter (fun d => d.track == c.track && d.id != c.id)
    with hothers
  have hmem_others : ∀ d ∈ others, d ∈ clips ∧ d.track = c.track ∧ d.id ≠ c.id := by
    intro d hd
    rw [hothers, List.mem_filter, Bool.and_eq_true_iff] at hd
    exact ⟨hd.1, beq_iff_eq.mp hd.2.1, bne_iff_ne.mp hd.2.2⟩
  have hfil : others.Pairwise (fun a b => a.track = b.track → ¬ spansOverlap a b) :=
    hno.sublist (List.filter_sublist clips)
  have hperm : List.Perm (sortByStart others) others :=
    List.perm_insertionSort startLE others
  have hsym : Symmetric (fun a b : TimelineClip =>
      a.track = b.track → ¬ spansOverlap a b) := by
    intro a b h e hov
    exact h e.symm (spansOverlap_symm hov)
  have hnosort : (sortByStart others).Pairwise
      (fun a b => a.track = b.track → ¬ spansOverlap a b) :=
    (hperm.pairwise_iff (fun {a b} hr => hsym hr)).mpr hfil
  have hsorted : (sortByStart others).Pairwise startLE :=
    List.sorted_insertionSort startLE others
  have hends : (sortByStart others).Pairwise
      (fun a b => clipEnd a ≤ clipEnd b) := by
    refine (hsorted.and hnosort).imp_of_mem ?_
    intro a b ha hb hab
    have ha' := hmem_others a ((List.mem_insertionSort startLE).mp ha)
    have hb' := hmem_others b ((List.mem_insertionSort startLE).mp hb)
    have htr : a.track = b.track := ha'.2.1.trans hb'.2.1.symm
    have hnov := hab.2 htr
    have hble := hab.1
    have hbdur : 0 < b.duration := (hpos b hb'.1 hb'.2.1 hb'.2.2).1
    rw [spansOverlap, not_and_or] at hnov
    unfold clipEnd at hnov ⊢
    unfold startLE at hble
    rcases hnov with h | h
    · push_neg at h
      linarith
    · push_neg at h
      linarith
  have hmap : ((sortByStart others).map clipEnd).Pairwise (· ≤ ·) :=
    List.pairwise_map.mpr hends
  have hpts_eq : getSnapPoints clips c = 0 :: (sortByStart others).map clipEnd :=
    rfl
  rw [hpts_eq]
  refine List.pairwise_cons.mpr ⟨?_, hmap⟩
  intro e he
  obtain ⟨a, ha, rfl⟩ := List.mem_map.mp he
  have ha' := hmem_others a ((List.mem_insertionSort startLE).mp ha)
  obtain ⟨hda, hsa⟩ := hpos a ha'.1 ha'.2.1 ha'.2.2
  unfold clipEnd
  linarith

/-- Claim C6: for a dragged clip of fixed duration the snap candidates are
`0` together with the end times of the other clips on its track, and among
the candidates that leave the clip overlap-free the engine commits the one
minimizing the distance to the raw proposal, breaking exact ties toward the
smaller candidate; in particular with clips spanning `[0,5)` and `[8,12)` on
the track, a clip of duration `3` dragged toward `6` snaps to `5`.  The
general hypotheses are the store's invariants: committed clips do not
overlap, have positive durations and non-negative start times. -/
theorem snapToNearestPoint_argmin :
    (∀ (clips : List TimelineClip) (c : TimelineClip) (p : ℚ),
      noOverlaps clips → 0 < c.duration →
      (∀ d ∈ clips, d.track = c.track → d.id ≠ c.id →
        0 < d.duration ∧ 0 ≤ d.startTime) →
      moveClipStart clips c p ∈ getSnapPoints clips c ∧
      isValidPosition clips (moveClipStart clips c p) c.duration c.track
        (some c.id) = true ∧
      (∀ q ∈ getSnapPoints clips c,
        isValidPosition clips q c.duration c.track (some c.id) = true →
        |moveClipStart clips c p - p| ≤ |q - p| ∧
        (|moveClipStart clips c p - p| = |q - p| →
          moveClipStart clips c p ≤ q))) ∧
    moveClipStart [clip05, clip812, movingClip] movingClip 6 = 5 := by
  constructor
  · intro clips c p hno hdur hpos
    have hsort := getSnapPoints_sorted clips c hno hpos
    obtain ⟨q0, hq0, hq0v⟩ := getSnapPoints_exists_valid clips c hdur
      (fun d hd ht hi => (hpos d hd ht hi).1)
    rw [moveClipStart_eq_snapFold]
    set v := fun pt => isValidPosition clips pt c.duration c.track (some c.id)
      with hv
    set pts := getSnapPoints clips c with hpts
    have hinit : ∀ m : ℚ, (((0 : ℚ), (none : Option ℚ))).2 = some m →
        ∀ q ∈ pts, (((0 : ℚ), (none : Option ℚ))).1 ≤ q := by
      intro m hm
      exact absurd hm (by simp)
    rcases hres : (snapFold v p pts (0, none)).2 with _ | m'
    · exfalso
      obtain ⟨_, hall⟩ := snapFold_none v p pts (0, none) hres
      have : v q0 = true := hq0v
      rw [hall q0 hq0] at this
      exact Bool.false_ne_true this
    · have hbest := snapFold_best_valid v p pts (0, none)
        (by intro m hm; exact absurd hm (by simp)) m' hres
      refine ⟨?_, hbest.1, ?_⟩
      · rcases snapFold_mem v p pts (0, none) with h | h
        · rw [h]
          rw [hpts]
          exact List.mem_cons_self _ _
        · exact h
      · intro q hq hqv
        obtain ⟨m'', hres2, hle, htie⟩ :=
          snapFold_min v p pts (0, none) hsort hinit q hq hqv
        rw [hres] at hres2
        cases hres2
        rw [abs_sub_comm (snapFold v p pts (0, none)).1 p,
          abs_sub_comm q p, ← hbest.2]
        exact ⟨hle, htie⟩
  · norm_num [moveClipStart, snapToNearestPoint, snapFold, getSnapPoints,
      sortByStart, isValidPosition, conflictsSpan, clipEnd,
      List.insertionSort, List.orderedInsert, clip05, clip812, movingClip,
      startLE, List.filter, List.all]

/-! ### Playback lookup -/

/-- `find?` on a list sorted by start time returns a match of minimal start
time. -/
theorem find?_min_start (pred : TimelineClip → Bool) :
    ∀ (l : List TimelineClip), l.Pairwise startLE →
      ∀ c, l.find? pred = some c →
        ∀ d ∈ l, pred d = true → c.startTime ≤ d.startTime
  | [], _, c, h => by simp at h
  | x :: xs, hsort, c, h => by
    intro d hd hpd
    cases hpx : pred x with
    | true =>
      rw [List.find?_cons_of_pos xs hpx] at h
      cases h
      rcases List.mem_cons.mp hd with heq | hd'
      · rw [heq]
      · exact (List.pairwise_cons.mp hsort).1 d hd'
    | false =>
      rw [List.find?_cons_of_neg xs (by rw [hpx]; exact Bool.false_ne_true)] at h
      rcases List.mem_cons.mp hd with heq | hd'
      · rw [heq] at hpd
        rw [hpd] at hpx
        simp at hpx
      · exact find?_min_start pred xs (List.pairwise_cons.mp hsort).2 c h d hd' hpd

/-- Clip spanning `[5, 10)` on track 0, starting exactly where `clip05`
ends. -/
def clipAfter5 : TimelineClip :=
  { id := 4, clipId := 4, startTime := 5, duration := 5, trimStart := 0,
    trimEnd := 5, track := 0, sourceDuration := 5 }

/-- Claim C7: `getClipAtTime` returns the first clip on track 0 (ascending
`startTime`) whose half-open span contains the queried time — the returned
clip always strictly contains the time, never the clip ending there, and no
track-0 clip with an earlier start contains it — and the displayed source
time is `trimStart + (t - startTime)`; in particular at the exact boundary
`5` between `[0,5)` and `[5,10)` the second clip is returned. -/
theorem getClipAtTime_spec :
    (∀ (clips : List TimelineClip) (t : ℚ),
      (∀ c, getClipAtTime clips t = some c →
        c ∈ clips ∧ c.track = 0 ∧ c.startTime ≤ t ∧ t < clipEnd c ∧
        (∀ d ∈ clips, d.track = 0 → d.startTime ≤ t → t < clipEnd d →
          c.startTime ≤ d.startTime) ∧
        playheadSourceTime clips t = some (c.trimStart + (t - c.startTime))) ∧
      (getClipAtTime clips t = none →
        ∀ d ∈ clips, d.track = 0 → ¬(d.startTime ≤ t ∧ t < clipEnd d))) ∧
    getClipAtTime [clip05, clipAfter5] 5 = some clipAfter5 := by
  constructor
  · intro clips t
    set track0 := sortByStart (clips.filter fun c => c.track == 0) with ht0
    have hmem0 : ∀ d ∈ track0, d ∈ clips ∧ d.track = 0 := by
      intro d hd
      rw [ht0] at hd
      have := (List.mem_insertionSort startLE).mp hd
      rw [List.mem_filter] at this
      exact ⟨this.1, beq_iff_eq.mp this.2⟩
    have hmem0' : ∀ d ∈ clips, d.track = 0 → d ∈ track0 := by
      intro d hd h0
      rw [ht0]
      refine (List.mem_insertionSort startLE).mpr ?_
      rw [List.mem_filter]
      exact ⟨hd, beq_iff_eq.mpr h0⟩
    constructor
    · intro c h
      have hfind : track0.find?
          (fun c => decide (c.startTime ≤ t ∧ t < clipEnd c)) = some c := h
      have hcmem := hmem0 c (List.mem_of_find?_eq_some hfind)
      have hcpred' := List.find?_some hfind
      simp only [decide_eq_true_eq] at hcpred'
      have hcpred : c.startTime ≤ t ∧ t < clipEnd c := hcpred'
      refine ⟨hcmem.1, hcmem.2, hcpred.1, hcpred.2, ?_, ?_⟩
      · intro d hd h0 h1 h2
        exact find?_min_start _ track0
          (List.sorted_insertionSort startLE _) c hfind d (hmem0' d hd h0)
          (decide_eq_true ⟨h1, h2⟩)
      · rw [playheadSourceTime, h, Option.map_some']
    · intro h d hd h0 hcontra
      have hfind : track0.find?
          (fun c => decide (c.startTime ≤ t ∧ t < clipEnd c)) = none := h
      have := List.find?_eq_none.mp hfind d (hmem0' d hd h0)
      rw [decide_eq_true hcontra] at this
      simp at this
  · norm_num [getClipAtTime, sortByStart, List.insertionSort,
      List.orderedInsert, startLE, clip05, clipAfter5, List.filter,
      List.find?, clipEnd]

/-! ### The trim handles and the non-overlap invariant -/

/-- Clip with `startTime 0`, `trimStart 2`, `trimEnd 5`: its committed span
is `[0, 3)`. -/
def trimClipA : TimelineClip :=
  { id := 1, clipId := 1, startTime := 0, duration := 3, trimStart := 2,
    trimEnd := 5, track := 0, sourceDuration := 5 }

/-- Clip spanning `[3, 6)` on track 0, flush after `trimClipA`. -/
def trimClipB : TimelineClip :=
  { id := 2, clipId := 2, startTime := 3, duration := 3, trimStart := 0,
    trimEnd := 3, track := 0, sourceDuration := 3 }

/-- Claim C1 is violated by the trim operation: starting from the
non-overlapping committed state `[trimClipA, trimClipB]` (spans `[0,3)` and
`[3,6)`), committing a Start-side trim of `trimClipA` to proposed boundary
`0` grows its duration to `5`, so its span `[0,5)` overlaps `[3,6)`: the
trim handlers perform no overlap re-check before commit. -/
theorem commitTrim_can_violate_noOverlaps :
    noOverlaps [trimClipA, trimClipB] ∧
    ¬ noOverlaps (commitTrim [trimClipA, trimClipB] 1 TrimSide.start 0) := by
  constructor
  · norm_num [noOverlaps, spansOverlap, clipEnd, trimClipA, trimClipB]
  · norm_num [noOverlaps, commitTrim, applyTrim, trimLeft, MIN_CLIP_DURATION,
      spansOverlap, clipEnd, trimClipA, trimClipB]

/-- Counterexample to claim C9 as stated: trimming the Start side of
`trimClipA` (composition span `[0,3)`) to boundary `0` moves the composition
end from `3` to `5`; the code keeps `startTime` fixed and lets the end move,
instead of keeping the end fixed. -/
theorem trimLeft_moves_composition_end :
    (trimLeft trimClipA 0).startTime + (trimLeft trimClipA 0).duration ≠
      trimClipA.startTime + trimClipA.duration := by
  norm_num [trimLeft, MIN_CLIP_DURATION, trimClipA]

/-- Claim C9 as amended: a committed trim never changes `startTime` (the
composition start edge stays fixed and the composition end moves with the
trimmed duration); the Start boundary is clamped into
`[0, trimEnd - MIN_CLIP_DURATION]`, the End boundary into
`[trimStart + MIN_CLIP_DURATION, sourceDuration]` (so
`trim(id, End, sourceDuration + 100)` clamps to `sourceDuration`), and the
trim-range invariants `0 ≤ trimStart`, `trimStart + MIN_CLIP_DURATION ≤
trimEnd ≤ sourceDuration` with `duration = trimEnd - trimStart` are
maintained. -/
theorem trim_keeps_start_edge (c : TimelineClip) (p : ℚ)
    (h0 : 0 ≤ c.trimStart)
    (hmin : c.trimStart + MIN_CLIP_DURATION ≤ c.trimEnd)
    (hsrc : c.trimEnd ≤ c.sourceDuration) :
    ((trimLeft c p).startTime = c.startTime ∧
     (trimLeft c p).trimEnd = c.trimEnd ∧
     0 ≤ (trimLeft c p).trimStart ∧
     (trimLeft c p).trimStart + MIN_CLIP_DURATION ≤ (trimLeft c p).trimEnd ∧
     (trimLeft c p).trimEnd ≤ c.sourceDuration ∧
     (trimLeft c p).duration =
       (trimLeft c p).trimEnd - (trimLeft c p).trimStart) ∧
    ((trimRight c p).startTime = c.startTime ∧
     (trimRight c p).trimStart = c.trimStart ∧
     0 ≤ (trimRight c p).trimStart ∧
     (trimRight c p).trimStart + MIN_CLIP_DURATION ≤ (trimRight c p).trimEnd ∧
     (trimRight c p).trimEnd ≤ c.sourceDuration ∧
     (trimRight c p).duration =
       (trimRight c p).trimEnd - (trimRight c p).trimStart) ∧
    (trimRight c (c.sourceDuration + 100)).trimEnd = c.sourceDuration := by
  have hEps : (0 : ℚ) < MIN_CLIP_DURATION := by norm_num [MIN_CLIP_DURATION]
  refine ⟨⟨rfl, rfl, ?_, ?_, hsrc, rfl⟩, ⟨rfl, rfl, h0, ?_, ?_, rfl⟩, ?_⟩
  · exact le_max_left 0 _
  · show max 0 (min (c.trimEnd - MIN_CLIP_DURATION) p) + MIN_CLIP_DURATION ≤
      c.trimEnd
    have h1 : max 0 (min (c.trimEnd - MIN_CLIP_DURATION) p) ≤
        c.trimEnd - MIN_CLIP_DURATION := by
      apply max_le
      · linarith
      · exact min_le_left _ _
    linarith
  · show c.trimStart + MIN_CLIP_DURATION ≤
      min c.sourceDuration (max (c.trimStart + MIN_CLIP_DURATION) p)
    apply le_min
    · linarith
    · exact le_max_left _ _
  · exact min_le_left _ _
  · show min c.sourceDuration
      (max (c.trimStart + MIN_CLIP_DURATION) (c.sourceDuration + 100)) =
      c.sourceDuration
    rw [max_eq_right (by linarith), min_eq_left (by linarith)]

theorem trim_keeps_start_edge_witness :
    (((trimLeft trimClipA 7).startTime = trimClipA.startTime ∧
      (trimLeft trimClipA 7).trimEnd = trimClipA.trimEnd ∧
      0 ≤ (trimLeft trimClipA 7).trimStart ∧
      (trimLeft trimClipA 7).trimStart + MIN_CLIP_DURATION ≤
        (trimLeft trimClipA 7).trimEnd ∧
      (trimLeft trimClipA 7).trimEnd ≤ trimClipA.sourceDuration ∧
      (trimLeft trimClipA 7).duration =
        (trimLeft trimClipA 7).trimEnd - (trimLeft trimClipA 7).trimStart) ∧
     ((trimRight trimClipA 7).startTime = trimClipA.startTime ∧
      (trimRight trimClipA 7).trimStart = trimClipA.trimStart ∧
      0 ≤ (trimRight trimClipA 7).trimStart ∧
      (trimRight trimClipA 7).trimStart + MIN_CLIP_DURATION ≤
        (trimRight trimClipA 7).trimEnd ∧
      (trimRight trimClipA 7).trimEnd ≤ trimClipA.sourceDuration ∧
      (trimRight trimClipA 7).duration =
        (trimRight trimClipA 7).trimEnd - (trimRight trimClipA 7).trimStart) ∧
     (trimRight trimClipA (trimClipA.sourceDuration + 100)).trimEnd =
       trimClipA.sourceDuration) :=
  trim_keeps_start_edge trimClipA 7
    (by norm_num [trimClipA])
    (by norm_num [trimClipA, MIN_CLIP_DURATION])
    (by norm_num [trimClipA])

/-! ### Split (modelled from the spec) -/

/-- Clip spanning `[10, 20)` (full source of duration 10). -/
def splitDemo : TimelineClip :=
  { id := 5, clipId := 5, startTime := 10, duration := 10, trimStart := 0,
    trimEnd := 10, track := 0, sourceDuration := 10 }

/-- Claim C3 (against the spec-modelled `splitClip`, the operation being
absent from the source): split fails unless the time is strictly inside the
clip's span; on success it yields two contiguous clips over the same source,
the first keeping `trimStart` with `trimEnd = trimStart + (t - startTime)`,
the second starting at `t` with `trimStart` equal to that cut point and the
original `trimEnd`, with no gap or overlap (the first's composition end is
the second's start and the overall span is preserved); in particular a clip
spanning `[10,20)` split at `15` yields spans `[10,15)` and `[15,20)` with
contiguous trim ranges. -/
theorem splitClip_spec :
    (∀ (c : TimelineClip) (t : ℚ) (newId : Nat),
      (¬(c.startTime < t ∧ t < c.startTime + (c.trimEnd - c.trimStart)) →
        splitClip c t newId = none) ∧
      ((c.startTime < t ∧ t < c.startTime + (c.trimEnd - c.trimStart)) →
        ∃ a b, splitClip c t newId = some (a, b) ∧
          a.clipId = c.clipId ∧ b.clipId = c.clipId ∧
          a.startTime = c.startTime ∧ a.trimStart = c.trimStart ∧
          a.trimEnd = c.trimStart + (t - c.startTime) ∧
          b.trimStart = a.trimEnd ∧ b.trimEnd = c.trimEnd ∧
          b.startTime = t ∧ b.id = newId ∧
          a.duration = a.trimEnd - a.trimStart ∧
          b.duration = b.trimEnd - b.trimStart ∧
          a.startTime + a.duration = b.startTime ∧
          b.startTime + b.duration =
            c.startTime + (c.trimEnd - c.trimStart))) ∧
    splitClip splitDemo 15 6 =
      some ({ id := 5, clipId := 5, startTime := 10, duration := 5,
              trimStart := 0, trimEnd := 5, track := 0, sourceDuration := 10 },
            { id := 6, clipId := 5, startTime := 15, duration := 5,
              trimStart := 5, trimEnd := 10, track := 0,
              sourceDuration := 10 }) := by
  constructor
  · intro c t newId
    constructor
    · intro h
      rw [splitClip, if_neg h]
    · intro h
      have hsome : splitClip c t newId =
          some ({ c with
                  trimEnd := c.trimStart + (t - c.startTime)
                  duration := c.trimStart + (t - c.startTime) - c.trimStart },
                { c with
                  id := newId
                  startTime := t
                  trimStart := c.trimStart + (t - c.startTime)
                  duration := c.trimEnd - (c.trimStart + (t - c.startTime)) }) := by
        rw [splitClip, if_pos h]
      refine ⟨_, _, hsome, rfl, rfl, rfl, rfl, rfl, rfl, rfl, rfl, rfl, rfl,
        rfl, ?_, ?_⟩
      · show c.startTime + (c.trimStart + (t - c.startTime) - c.trimStart) = t
        ring
      · show t + (c.trimEnd - (c.trimStart + (t - c.startTime))) =
          c.startTime + (c.trimEnd - c.trimStart)
        ring
  · norm_num [splitClip, splitDemo]

/-! ### Place, and the export pipeline -/

theorem le_foldl_trackStep (track : Nat) :
    ∀ (l : List TimelineClip) (a : ℚ), a ≤ l.foldl (trackStep track) a := by
  intro l
  induction l with
  | nil => intro a; exact le_refl a
  | cons c cs ih =>
    intro a
    refine le_trans ?_ (ih (trackStep track a c))
    unfold trackStep
    split
    · next h => exact h.2.le
    · exact le_refl a

theorem clipEnd_le_foldl_trackStep (track : Nat) :
    ∀ (l : List TimelineClip) (a : ℚ), ∀ d ∈ l, d.track = track →
      clipEnd d ≤ l.foldl (trackStep track) a := by
  intro l
  induction l with
  | nil => intro a d hd; exact absurd hd (List.not_mem_nil d)
  | cons c cs ih =>
    intro a d hd ht
    rcases List.mem_cons.mp hd with heq | hd'
    · refine le_trans ?_ (le_foldl_trackStep track cs (trackStep track a c))
      rw [heq] at ht ⊢
      unfold trackStep
      split
      · exact le_refl _
      · next h =>
        rw [not_and_or] at h
        rcases h with h | h
        · exact absurd ht h
        · exact not_lt.mp h
    · exact ih (trackStep track a c) d hd' ht

theorem clipEnd_le_trackEnd (clips : List TimelineClip) (track : Nat)
    (d : TimelineClip) (hd : d ∈ clips) (ht : d.track = track) :
    clipEnd d ≤ trackEnd clips track :=
  clipEnd_le_foldl_trackStep track clips 0 d hd ht

/-- Counterexample to claim C8 as stated: on a track whose only clip spans
`[0,5)`, the desired start `10` is a legal (overlap-free) position, yet the
code appends the new clip at `5`: `addToTimeline` takes no desired start
position at all and never tries one. -/
theorem addToTimeline_ignores_desiredStart :
    isValidPosition [clip05] 10 7 0 none = true ∧
    addToTimeline [clip05] 9 9 (7 : ℚ) 0 =
      [clip05,
       { id := 9
         clipId := 9
         startTime := 5
         duration := 7
         trimStart := 0
         trimEnd := 7
         track := 0
         sourceDuration := 7 }] ∧
    (5 : ℚ) ≠ 10 := by
  refine ⟨?_, ?_, by norm_num⟩
  · norm_num [isValidPosition, conflictsSpan, clipEnd, clip05]
  · norm_num [addToTimeline, trackEnd, trackStep, clipEnd, clip05]

/-- Claim C8 as amended: `addToTimeline` ignores any desired start position;
it always appends the new full-source clip (`trimStart = 0`,
`trimEnd = duration = sourceDuration`) at the largest end time of the clips
already on the target track (`0` for an empty track), and this position
never overlaps an existing clip on the track; being a pure function of the
prior state, retrying from the same state yields the same result.  In
particular with one clip spanning `[0,5)` the new clip is appended at `5`. -/
theorem addToTimeline_appends_at_track_end :
    (∀ (clips : List TimelineClip) (newId sourceId : Nat) (src : ℚ)
       (track : Nat),
      0 < src →
      (∀ d ∈ clips, d.track = track → 0 < d.duration) →
      addToTimeline clips newId sourceId src track =
        clips ++
          [{ id := newId
             clipId := sourceId
             startTime := trackEnd clips track
             duration := src
             trimStart := 0
             trimEnd := src
             track := track
             sourceDuration := src }] ∧
      isValidPosition clips (trackEnd clips track) src track none = true) ∧
    addToTimeline [clip05] 9 9 (7 : ℚ) 0 =
      [clip05,
       { id := 9
         clipId := 9
         startTime := 5
         duration := 7
         trimStart := 0
         trimEnd := 7
         track := 0
         sourceDuration := 7 }] := by
  constructor
  · intro clips newId sourceId src track hsrc hdur
    refine ⟨rfl, ?_⟩
    apply isValidPosition_of_upper_bound clips _ src track none hsrc
    intro d hd ht _
    exact ⟨hdur d hd ht, clipEnd_le_trackEnd clips track d hd ht⟩
  · norm_num [addToTimeline, trackEnd, trackStep, clipEnd, clip05]

/-- A timeline clip whose end has been trimmed (`trimEnd = 3`) out of a
source of duration `10`, with `trimStart = 0`; the renderer's export payload
carries `duration = trimEnd - trimStart = 3`. -/
def endTrimmedClip : TimelineClip :=
  { id := 1, clipId := 1, startTime := 0, duration := 3, trimStart := 0,
    trimEnd := 3, track := 0, sourceDuration := 10 }

/-- Claim C4 fails in the case it singles out: with `trimStart = 0` and
`trimEnd = 3` strictly below the source duration `10`, the single-clip
branch's condition `clip.trimStart > 0 || clip.trimEnd < clip.duration`
(which compares `trimEnd` against the payload duration
`trimEnd - trimStart`, not the source duration) is false, so no trim options
are attached and the whole source `[0, 10)` is encoded instead of
`[0, 3)`. -/
theorem singleClipExport_ignores_end_only_trim :
    singleClipTrim (toExportClip endTrimmedClip "a.mp4") = none ∧
    singleClipRange (toExportClip endTrimmedClip "a.mp4") 10 = (0, 10) ∧
    ((0 : ℚ), (10 : ℚ)) ≠ ((0 : ℚ), (3 : ℚ)) := by
  refine ⟨?_, ?_, ?_⟩
  · norm_num [singleClipTrim, toExportClip, endTrimmedClip]
  · norm_num [singleClipRange, singleClipTrim, toExportClip, endTrimmedClip]
  · norm_num [Prod.ext_iff]

/-- Export payload for a clip spanning `[0, 4)`. -/
def exportClipA : ExportClip :=
  { clipId := "a.mp4", startTime := 0, duration := 4, trimStart := 0,
    trimEnd := 4, track := 0 }

/-- Export payload for a clip spanning `[4, 9)`. -/
def exportClipB : ExportClip :=
  { clipId := "b.mp4", startTime := 4, duration := 5, trimStart := 0,
    trimEnd := 5, track := 0 }

/-- Encoder oracle under which only the first per-clip encode succeeds: the
second clip's trim-encode fails. -/
def secondEncodeFails : Nat → Bool := fun i => i == 0

/-- Counterexample to claim C5 as stated: when the second clip's trim-encode
fails in a two-clip export, no concat is attempted and no output file is
created, but nothing is cleaned up: the temporary working directory (and the
first clip's temporary file) remain on disk, contradicting the claimed
cleanup. -/
theorem runExport_failure_leaves_tempdir :
    (runExport [exportClipA, exportClipB] secondEncodeFails true).error =
      some "encode failed" ∧
    (runExport [exportClipA, exportClipB] secondEncodeFails true).concatAttempted
      = false ∧
    EPath.output ∉
      (runExport [exportClipA, exportClipB] secondEncodeFails true).fs ∧
    EPath.tempDir ∈
      (runExport [exportClipA, exportClipB] secondEncodeFails true).fs := by
  norm_num [runExport, sortExport, List.insertionSort, List.orderedInsert,
    exportLE, exportClipA, exportClipB, secondEncodeFails, List.range_succ,
    List.filter, List.all]
  decide

/-- Claim C5 as amended: in a multi-clip export, any per-clip encode failure
aborts the export — the concat step is never attempted, the output file is
not created, and a single failure is surfaced — but no cleanup happens: the
temporary working directory remains on disk (together with the temporary
files of the encodes that succeeded). -/
theorem runExport_encode_failure_aborts (clips : List ExportClip)
    (encodeOk : Nat → Bool) (concatOk : Bool) (hlen : 2 ≤ clips.length)
    (hfail : ∃ i, i < clips.length ∧ encodeOk i = false) :
    (runExport clips encodeOk concatOk).error = some "encode failed" ∧
    (runExport clips encodeOk concatOk).concatAttempted = false ∧
    EPath.output ∉ (runExport clips encodeOk concatOk).fs ∧
    EPath.tempDir ∈ (runExport clips encodeOk concatOk).fs := by
  obtain ⟨i, hi, hio⟩ := hfail
  have h0 : ¬ clips.length = 0 := by omega
  have hslen : (sortExport clips).length = clips.length :=
    List.Perm.length_eq (List.perm_insertionSort exportLE clips)
  have h1 : ¬ (sortExport clips).length = 1 := by
    rw [hslen]
    omega
  have hall : (List.range (sortExport clips).length).all encodeOk = false := by
    cases hA : (List.range (sortExport clips).length).all encodeOk with
    | false => rfl
    | true =>
      exfalso
      have := List.all_eq_true.mp hA i
        (List.mem_range.mpr (by rw [hslen]; exact hi))
      rw [hio] at this
      exact Bool.false_ne_true this
  simp only [runExport, if_neg h0, if_neg h1, hall]
  norm_num [List.mem_cons, List.mem_map]
  refine ⟨by decide, ?_⟩
  intro x _ _
  simp

theorem runExport_encode_failure_aborts_witness :
    (runExport [exportClipA, exportClipB] secondEncodeFails true).error =
      some "encode failed" ∧
    (runExport [exportClipA, exportClipB] secondEncodeFails true).concatAttempted
      = false ∧
    EPath.output ∉
      (runExport [exportClipA, exportClipB] secondEncodeFails true).fs ∧
    EPath.tempDir ∈
      (runExport [exportClipA, exportClipB] secondEncodeFails true).fs :=
  runExport_encode_failure_aborts [exportClipA, exportClipB]
    secondEncodeFails true (by norm_num) ⟨1, by norm_num, rfl⟩

/-- Claim C10: exporting an empty clip list fails with `'No clips to
export'` before anything happens: zero encoder processes are spawned, no
output file or temporary directory is created, and no concat is
attempted. -/
theorem runExport_empty_rejected (encodeOk : Nat → Bool) (concatOk : Bool) :
    runExport [] encodeOk concatOk =
      { fs := []
        encodersSpawned := 0
        error := some "No clips to export"
        concatAttempted := false } := rfl

end ClipForge
